import Mathlib

/-!
Shallow embedding of the safe-hook crate (an inline hook library).

The embedding follows `src/safe-hook/src/lib.rs` and the call-site wrapper
emitted by the attribute in `src/safe-hook-macros/src/lib.rs`:

* `TypeId` values are modelled as opaque natural-number tags; the crate only
  compares them for equality.
* `Arc<dyn HookDyn>` is modelled by `HookCap`: an address identity (`id`,
  standing for the pointer compared by `std::ptr::addr_eq`), the runtime
  `(result, args)` signature pair returned by `type_info()`, and the pure
  call behaviour `Args -> (next : Args -> Result) -> Result` obtained through
  `get_call_fn`/`hook_call_wrapper`.
* `HookableFuncMetadata` keeps the fields of the Rust struct; the interior
  mutability (`RwLock`, `AtomicBool`) is rendered as explicit state passing:
  every mutating method takes the record and returns the updated record.
* The atomic orderings used by the mutators and by the generated call site
  are recorded by companion `..._events` functions that list the atomic
  accesses each operation performs, in program order.
-/

/-- Runtime type identity; stands for `std::any::TypeId`.
The crate only ever compares these for equality. -/
abbrev TypeTag := Nat

/-- A type-erased hook capability: model of `Arc<dyn HookDyn>`.
`id` models the address of the allocation (what `std::ptr::addr_eq`
compares in `remove_hook`); `type_info` models `HookDyn::type_info()`,
the `(TypeId of Result, TypeId of Args)` pair; `call` models invoking the
entry point returned by `get_call_fn` through `hook_call_wrapper`, i.e.
`Hook::call(self, args, next)`. -/
structure HookCap (A R : Type) where
  id : Nat
  type_info : TypeTag × TypeTag
  call : A → (A → R) → R

/-- One element of the record's `hooks` vector: `(Arc<dyn HookDyn>, i32)`. -/
abbrev HookEntry (A R : Type) := HookCap A R × Int

/-- Model of the `HookableFuncMetadata` struct: name, original entry point
(the function pointer, modelled as the function itself), signature pair,
atomic fast-path flag value, and the `RwLock<Vec<_>>`-guarded hook list. -/
structure HookableFuncMetadata (A R : Type) where
  name : String
  func : A → R
  type_info : TypeTag × TypeTag
  fast_path_flag : Bool
  hooks : List (HookEntry A R)

/-- Memory orderings appearing in the crate's atomic operations. -/
inductive MemOrd where
  | relaxed
  | release
  | acquire
deriving DecidableEq, Repr

/-- An atomic access on the record's `fast_path_flag`. -/
inductive AtomicEvent where
  | store (value : Bool) (ord : MemOrd)
  | load (value : Bool) (ord : MemOrd)
deriving DecidableEq, Repr

/-- The error produced by `add_hook_with_priority` on a signature mismatch.
In Rust it is a formatted string
"Hook type mismatch: expected {self.type_info}, got {hook.type_info()}";
the model keeps the two payloads the string carries. -/
inductive AddHookError where
  | mismatch (expected got : TypeTag × TypeTag)
deriving DecidableEq, Repr

namespace HookableFuncMetadata

/-- `HookableFuncMetadata::add_hook_with_priority`.  Rejects hooks whose
`type_info()` differs from the record's; otherwise inserts at the first
position whose existing priority is `<=` the new one
(`hooks.iter().position(|h| h.1 <= priority).unwrap_or(hooks.len())`),
and stores `true` into the fast-path flag with `Ordering::Release`. -/
def add_hook_with_priority (m : HookableFuncMetadata A R) (hook : HookCap A R)
    (priority : Int) : Except AddHookError Unit × HookableFuncMetadata A R :=
  if hook.type_info ≠ m.type_info then
    (.error (.mismatch m.type_info hook.type_info), m)
  else
    let pos := m.hooks.findIdx (fun h => decide (h.2 ≤ priority))
    (.ok (), { m with
      hooks := m.hooks.insertIdx pos (hook, priority)
      fast_path_flag := true })

/-- Atomic stores performed by `add_hook_with_priority`, in program order. -/
def add_hook_events (m : HookableFuncMetadata A R) (hook : HookCap A R)
    (_priority : Int) : List AtomicEvent :=
  if hook.type_info ≠ m.type_info then []
  else [.store true .release]

/-- `HookableFuncMetadata::add_hook`: default priority 0. -/
def add_hook (m : HookableFuncMetadata A R) (hook : HookCap A R) :
    Except AddHookError Unit × HookableFuncMetadata A R :=
  m.add_hook_with_priority hook 0

/-- `HookableFuncMetadata::remove_hook`.  Finds the first entry whose
capability is address-identical (`std::ptr::addr_eq`) to the argument,
removes it, and stores `false` (with `Ordering::Relaxed`) into the
fast-path flag only when the list became empty; returns whether an entry
was removed. -/
def remove_hook (m : HookableFuncMetadata A R) (hookId : Nat) :
    Bool × HookableFuncMetadata A R :=
  match m.hooks.findIdx? (fun h => h.1.id == hookId) with
  | some pos =>
      let hooks' := m.hooks.eraseIdx pos
      (true, { m with
        hooks := hooks'
        fast_path_flag := if hooks'.isEmpty then false else m.fast_path_flag })
  | none => (false, m)

/-- Atomic stores performed by `remove_hook`, in program order. -/
def remove_hook_events (m : HookableFuncMetadata A R) (hookId : Nat) :
    List AtomicEvent :=
  match m.hooks.findIdx? (fun h => h.1.id == hookId) with
  | some pos =>
      if (m.hooks.eraseIdx pos).isEmpty then [.store false .relaxed] else []
  | none => []

/-- `HookableFuncMetadata::clear_hooks`: empties the list and stores `false`
into the fast-path flag with `Ordering::Relaxed`. -/
def clear_hooks (m : HookableFuncMetadata A R) : HookableFuncMetadata A R :=
  { m with hooks := [], fast_path_flag := false }

/-- Atomic stores performed by `clear_hooks`, in program order. -/
def clear_hooks_events (_m : HookableFuncMetadata A R) : List AtomicEvent :=
  [.store false .relaxed]

end HookableFuncMetadata

/-- The inner closure of `call_with_hook`, indexed by the value of the
shared `Cell<usize>` cursor `pos`.  The Rust closure advances the cursor to
`pos + 1` before invoking the hook and restores it on return, so the `next`
reference handed to the hook at slot `pos` always dispatches from
`pos + 1`; when the cursor is past the end it calls the original
function. -/
def next_fn (func : A → R) (hooks : List (HookEntry A R)) (pos : Nat)
    (args : A) : R :=
  if hlt : pos < hooks.length then
    (hooks.get ⟨pos, hlt⟩).1.call args (fun a => next_fn func hooks (pos + 1) a)
  else
    func args
termination_by hooks.length - pos
decreasing_by omega

/-- `call_with_hook`: snapshots the hook list under the read lock and starts
the recursion with the cursor at zero and the original arguments. -/
def call_with_hook (func : A → R) (m : HookableFuncMetadata A R) (args : A) : R :=
  next_fn func m.hooks 0 args

/-- The wrapper emitted by the `#[hookable]` attribute around a marked
function: load the fast-path flag with `Ordering::Acquire`; if it is clear,
run the original body (`__hookable_inner`) directly; otherwise enter
`call_with_hook` with the original body, the record, and the packed
arguments. -/
def callHookable (m : HookableFuncMetadata A R) (args : A) : R :=
  if !m.fast_path_flag then
    m.func args
  else
    call_with_hook m.func m args

/-- Atomic loads performed by the generated call-site wrapper. -/
def call_site_events (m : HookableFuncMetadata A R) : List AtomicEvent :=
  [.load m.fast_path_flag .acquire]

/-- `lookup_hookable`: iterate the inventory of registered records and
return the first whose `name` field equals the query (Rust `==` on
`String`, i.e. exact byte-for-byte equality); `None` when absent.  The
registry order is the inventory's iteration order. -/
def lookup_hookable (registry : List (HookableFuncMetadata A R)) (name : String) :
    Option (HookableFuncMetadata A R) :=
  registry.find? (fun item => item.name == name)

/-! ### Dispatch helper lemmas -/

/-- Unfolding equation of `next_fn` (the body of the Rust closure). -/
theorem next_fn_eq (func : A → R) (hooks : List (HookEntry A R)) (pos : Nat)
    (args : A) :
    next_fn func hooks pos args =
      if hlt : pos < hooks.length then
        (hooks.get ⟨pos, hlt⟩).1.call args
          (fun a => next_fn func hooks (pos + 1) a)
      else
        func args := by
  rw [next_fn]

/-- Structural (fold) form of chain dispatch over a list of hook entries:
run the entries front to back, falling back to the original function. -/
def chain_dispatch (func : A → R) : List (HookEntry A R) → A → R
  | [] => func
  | e :: rest => fun args => e.1.call args (chain_dispatch func rest)

/-- The cursor-indexed closure agrees with structural dispatch over the
list suffix starting at the cursor. -/
theorem next_fn_eq_chain_aux (func : A → R) (hooks : List (HookEntry A R)) :
    ∀ (n pos : Nat), hooks.length - pos ≤ n → ∀ args,
      next_fn func hooks pos args = chain_dispatch func (hooks.drop pos) args := by
  intro n
  induction n with
  | zero =>
    intro pos hle args
    have hge : hooks.length ≤ pos := by omega
    rw [next_fn_eq, dif_neg (by omega), List.drop_eq_nil_of_le hge]
    rfl
  | succ n ih =>
    intro pos hle args
    by_cases hlt : pos < hooks.length
    · rw [next_fn_eq, dif_pos hlt, List.drop_eq_getElem_cons hlt]
      show _ = (hooks.get ⟨pos, hlt⟩).1.call args
        (chain_dispatch func (hooks.drop (pos + 1)))
      congr 1
      funext a
      exact ih (pos + 1) (by omega) a
    · rw [next_fn_eq, dif_neg hlt, List.drop_eq_nil_of_le (by omega)]
      rfl

/-- `next_fn` from any cursor value equals structural dispatch on the
corresponding suffix. -/
theorem next_fn_eq_chain (func : A → R) (hooks : List (HookEntry A R))
    (pos : Nat) (args : A) :
    next_fn func hooks pos args = chain_dispatch func (hooks.drop pos) args :=
  next_fn_eq_chain_aux func hooks (hooks.length - pos) pos (le_refl _) args

/-- `call_with_hook` is structural dispatch over the whole snapshot. -/
theorem call_with_hook_eq_chain (func : A → R) (m : HookableFuncMetadata A R)
    (args : A) : call_with_hook func m args = chain_dispatch func m.hooks args :=
  next_fn_eq_chain func m.hooks 0 args

/-! ### The concrete scenario of `tests/add.rs` -/

/-- The target function of the test scenario: `add(a, b) = a + b`. -/
def addFn : Int × Int → Int := fun p => p.1 + p.2

/-- The signature tag pair of `add`: `(TypeId of i64, TypeId of (i64, i64))`. -/
def addTypeInfo : TypeTag × TypeTag := (1, 2)

/-- The test's `HookAdd { left, right, result }` capability: adds `l` to the
left argument and `r` to the right argument before continuing, then adds
`res` to the continuation's result. -/
def hookAddCap (id : Nat) (l r res : Int) : HookCap (Int × Int) Int :=
  { id := id
    type_info := addTypeInfo
    call := fun args next => next (args.1 + l, args.2 + r) + res }

/-- The freshly registered record for `add`: empty hook list, flag clear. -/
def addMeta0 : HookableFuncMetadata (Int × Int) Int :=
  { name := "add"
    func := addFn
    type_info := addTypeInfo
    fast_path_flag := false
    hooks := [] }

/-- A record for `add` carrying a single attached hook (used to exercise
the dispatch equations at a nonempty list). -/
def addMetaOne : HookableFuncMetadata (Int × Int) Int :=
  { addMeta0 with
    fast_path_flag := true
    hooks := [(hookAddCap 1 1 0 0, 0)] }

/-- Evaluation form of the generated call-site wrapper. -/
theorem callHookable_eq (m : HookableFuncMetadata A R) (args : A) :
    callHookable m args =
      if m.fast_path_flag then chain_dispatch m.func m.hooks args
      else m.func args := by
  rw [callHookable]
  cases h : m.fast_path_flag <;>
    simp [h, call_with_hook_eq_chain]

/-- With an empty hook list the call returns the original function's result,
whatever the flag says (the dispatch's terminal case fires at once). -/
theorem callHookable_of_nil (m : HookableFuncMetadata A R) (args : A)
    (hnil : m.hooks = []) : callHookable m args = m.func args := by
  rw [callHookable_eq, hnil]
  cases m.fast_path_flag <;> rfl

/-- Claim C1: the continue closure of the dispatch engine obeys the cursor
discipline.  The outer call starts the cursor at zero; the continuation
handed to the interceptor occupying slot `pos` is exactly dispatch from
slot `pos + 1` — so each of that interceptor's invocations of "next",
zero, one, or many, begins traversal at `pos + 1` and at no other
position — and whenever the cursor is past the end of the hook list the
continue closure calls the original function on the given arguments and
returns its result. -/
theorem call_with_hook_cursor_discipline (m : HookableFuncMetadata A R)
    (pos : Nat) (args : A) :
    call_with_hook m.func m args = next_fn m.func m.hooks 0 args ∧
    (m.hooks.length ≤ pos → next_fn m.func m.hooks pos args = m.func args) ∧
    (∀ hlt : pos < m.hooks.length,
      next_fn m.func m.hooks pos args =
        (m.hooks.get ⟨pos, hlt⟩).1.call args
          (fun a => next_fn m.func m.hooks (pos + 1) a)) := by
  refine ⟨rfl, fun hge => ?_, fun hlt => ?_⟩
  · rw [next_fn_eq, dif_neg (by omega)]
  · rw [next_fn_eq, dif_pos hlt]

/-- Witness for C1, at the records of the `tests/add.rs` scenario: past the
end of the empty list the original function runs; at slot 0 of a singleton
list the hook is invoked with the continuation that dispatches from 1. -/
theorem call_with_hook_cursor_discipline_witness :
    (next_fn addMeta0.func addMeta0.hooks 0 (1, 2) = addMeta0.func (1, 2)) ∧
    (next_fn addMetaOne.func addMetaOne.hooks 0 (1, 2) =
      (addMetaOne.hooks.get ⟨0, by decide⟩).1.call (1, 2)
        (fun a => next_fn addMetaOne.func addMetaOne.hooks 1 a)) :=
  ⟨(call_with_hook_cursor_discipline addMeta0 0 (1, 2)).2.1 (by decide),
   (call_with_hook_cursor_discipline addMetaOne 0 (1, 2)).2.2 (by decide)⟩

/-! ### States of the `tests/add.rs` scenario -/

/-- After `add_hook(hook1)`: H1 = (+1 left, +0 right, +0 result). -/
def addMetaH1 : HookableFuncMetadata (Int × Int) Int :=
  (addMeta0.add_hook (hookAddCap 1 1 0 0)).2

/-- After also `add_hook(hook2)`: H2 = (+0, +1, +0). -/
def addMetaH12 : HookableFuncMetadata (Int × Int) Int :=
  (addMetaH1.add_hook (hookAddCap 2 0 1 0)).2

/-- After also `add_hook(hook3)`: H3 = (+0, +0, +1). -/
def addMetaH123 : HookableFuncMetadata (Int × Int) Int :=
  (addMetaH12.add_hook (hookAddCap 3 0 0 1)).2

/-- After `remove_hook(hook1)`. -/
def addMetaR1 : HookableFuncMetadata (Int × Int) Int :=
  (addMetaH123.remove_hook 1).2

/-- After also `remove_hook(hook2)`. -/
def addMetaR12 : HookableFuncMetadata (Int × Int) Int :=
  (addMetaR1.remove_hook 2).2

/-- After also `remove_hook(hook3)`. -/
def addMetaR123 : HookableFuncMetadata (Int × Int) Int :=
  (addMetaR12.remove_hook 3).2

/-- Claim C3: the concrete scenario over the target `add(a,b) = a + b`.
Adding H1 = (+1 left, +0 right, +0 result) at priority 0 makes `add(1,2)`
return 4; adding H2 = (+0, +1, +0) makes the newer H2 run first and
`add(1,2)` return 5; adding H3 = (+0, +0, +1) yields 6; removing H1, then
H2, then H3 yields 5, then 4, then 3. -/
theorem add_hook_test_scenario :
    callHookable addMeta0 (1, 2) = 3 ∧
    callHookable addMetaH1 (1, 2) = 4 ∧
    callHookable addMetaH12 (1, 2) = 5 ∧
    callHookable addMetaH123 (1, 2) = 6 ∧
    callHookable addMetaR1 (1, 2) = 5 ∧
    callHookable addMetaR12 (1, 2) = 4 ∧
    callHookable addMetaR123 (1, 2) = 3 := by
  simp only [callHookable_eq]
  decide

/-- A capability whose signature pair differs from the `add` record's. -/
def badCap : HookCap (Int × Int) Int :=
  { id := 9
    type_info := (5, 6)
    call := fun args next => next args }

/-- Claim C4: when the hook's `(result, args)` signature pair differs from
the record's, `add_hook_with_priority` returns the mismatch error carrying
both signatures (expected = the record's, got = the hook's) and the record
— in particular its hook list, size, order and entries — is unmodified. -/
theorem add_hook_mismatch (m : HookableFuncMetadata A R) (hook : HookCap A R)
    (p : Int) (hne : hook.type_info ≠ m.type_info) :
    m.add_hook_with_priority hook p =
      (.error (.mismatch m.type_info hook.type_info), m) ∧
    (m.add_hook_with_priority hook p).2.hooks = m.hooks := by
  constructor <;> simp [HookableFuncMetadata.add_hook_with_priority, hne]

/-- Witness for C4, at the `add` record and a capability tagged (5, 6). -/
theorem add_hook_mismatch_witness :
    addMeta0.add_hook_with_priority badCap 0 =
      (.error (.mismatch addMeta0.type_info badCap.type_info), addMeta0) ∧
    (addMeta0.add_hook_with_priority badCap 0).2.hooks = addMeta0.hooks :=
  add_hook_mismatch addMeta0 badCap 0 (by decide)

/-- Claim C10: a mismatched `add_hook_with_priority` leaves the fast-path
flag unchanged as well as the list; in particular on a hook-free record
whose fast path is disabled, the flag stays false and a subsequent call
still runs the original body directly. -/
theorem add_hook_mismatch_frame (m : HookableFuncMetadata A R)
    (hook : HookCap A R) (p : Int) (args : A)
    (hne : hook.type_info ≠ m.type_info) :
    (m.add_hook_with_priority hook p).2.fast_path_flag = m.fast_path_flag ∧
    (m.hooks = [] → m.fast_path_flag = false →
      (m.add_hook_with_priority hook p).2.fast_path_flag = false ∧
      callHookable (m.add_hook_with_priority hook p).2 args = m.func args) := by
  have hst : (m.add_hook_with_priority hook p).2 = m := by
    simp [HookableFuncMetadata.add_hook_with_priority, hne]
  refine ⟨by rw [hst], fun hnil hflag => ⟨by rw [hst, hflag], ?_⟩⟩
  rw [hst]
  exact callHookable_of_nil m args hnil

/-- Witness for C10: a mismatched add on the freshly registered `add`
record keeps the flag false and `add(1,2)` still computes `1 + 2`. -/
theorem add_hook_mismatch_frame_witness :
    (addMeta0.add_hook_with_priority badCap 0).2.fast_path_flag
      = addMeta0.fast_path_flag ∧
    ((addMeta0.add_hook_with_priority badCap 0).2.fast_path_flag = false ∧
      callHookable (addMeta0.add_hook_with_priority badCap 0).2 (1, 2)
        = addMeta0.func (1, 2)) :=
  ⟨(add_hook_mismatch_frame addMeta0 badCap 0 (1, 2) (by decide)).1,
   (add_hook_mismatch_frame addMeta0 badCap 0 (1, 2) (by decide)).2 rfl rfl⟩

/-- The fast-path flag invariant of the record: the flag is true exactly
when the hook list is non-empty. -/
def flagInv (m : HookableFuncMetadata A R) : Prop :=
  m.fast_path_flag = true ↔ m.hooks ≠ []

/-- Claim C6: every write operation on the record — `add_hook_with_priority`
(successful or not), `remove_hook`, `clear_hooks` — preserves the
invariant that the fast-path flag is true iff the hook list is
non-empty. -/
theorem fast_path_flag_inv (m : HookableFuncMetadata A R) (cap : HookCap A R)
    (p : Int) (hookId : Nat) (hinv : flagInv m) :
    flagInv (m.add_hook_with_priority cap p).2 ∧
    flagInv (m.remove_hook hookId).2 ∧
    flagInv m.clear_hooks := by
  refine ⟨?_, ?_, by simp [flagInv, HookableFuncMetadata.clear_hooks]⟩
  · by_cases hty : cap.type_info ≠ m.type_info
    · have hst : (m.add_hook_with_priority cap p).2 = m := by
        simp [HookableFuncMetadata.add_hook_with_priority, hty]
      rw [hst]; exact hinv
    · rw [not_not] at hty
      have hle : m.hooks.findIdx (fun h => decide (h.2 ≤ p)) ≤ m.hooks.length :=
        List.findIdx_le_length (fun (h : HookEntry A R) => decide (h.2 ≤ p))
      have hlen : ((m.add_hook_with_priority cap p).2).hooks.length
          = m.hooks.length + 1 := by
        simp [HookableFuncMetadata.add_hook_with_priority, hty,
          List.length_insertIdx _ _ hle]
      have hflag : ((m.add_hook_with_priority cap p).2).fast_path_flag = true := by
        simp [HookableFuncMetadata.add_hook_with_priority, hty]
      rw [flagInv, hflag]
      simp only [true_iff]
      intro hn
      rw [hn] at hlen
      simp at hlen
  · rw [HookableFuncMetadata.remove_hook]
    cases hfind : m.hooks.findIdx? (fun h => h.1.id == hookId) with
    | none => exact hinv
    | some pos =>
      simp only
      by_cases hemp : (m.hooks.eraseIdx pos).isEmpty
      · rw [flagInv]
        simp [hemp, List.isEmpty_iff.mp hemp]
      · have hne : m.hooks ≠ [] := by
          intro h
          rw [h] at hfind
          simp [List.findIdx?] at hfind
        have hflag : m.fast_path_flag = true := hinv.mpr hne
        rw [flagInv]
        simp only [hemp, if_false, hflag, true_iff, Bool.false_eq_true]
        intro h
        rw [h] at hemp
        simp at hemp
  
/-- Witness for C6, at the freshly registered `add` record. -/
theorem fast_path_flag_inv_witness :
    flagInv (addMeta0.add_hook_with_priority (hookAddCap 1 1 0 0) 0).2 ∧
    flagInv (addMeta0.remove_hook 1).2 ∧
    flagInv addMeta0.clear_hooks :=
  fast_path_flag_inv addMeta0 (hookAddCap 1 1 0 0) 0 1
    (by simp [flagInv, addMeta0])

/-- Claim C7: with zero hooks the call returns exactly the original
function's result; and `clear_hooks` restores any record to the no-hook
baseline — empty list, flag false, same original function — so the
target's behaviour is again the original function's. -/
theorem clear_hooks_baseline (m : HookableFuncMetadata A R) (args : A) :
    (m.hooks = [] → callHookable m args = m.func args) ∧
    m.clear_hooks.hooks = [] ∧
    m.clear_hooks.fast_path_flag = false ∧
    m.clear_hooks.func = m.func ∧
    callHookable m.clear_hooks args = m.func args :=
  ⟨fun hnil => callHookable_of_nil m args hnil, rfl, rfl, rfl,
   callHookable_of_nil m.clear_hooks args rfl⟩

/-- Witness for C7: the empty `add` record computes `1 + 2 = 3`, and the
record holding all three scenario hooks, once cleared, does too. -/
theorem clear_hooks_baseline_witness :
    callHookable addMeta0 (1, 2) = addMeta0.func (1, 2) ∧
    addMetaH123.clear_hooks.hooks = [] ∧
    addMetaH123.clear_hooks.fast_path_flag = false ∧
    callHookable addMetaH123.clear_hooks (1, 2) = addMetaH123.func (1, 2) :=
  ⟨(clear_hooks_baseline addMeta0 (1, 2)).1 rfl,
   (clear_hooks_baseline addMetaH123 (1, 2)).2.1,
   (clear_hooks_baseline addMetaH123 (1, 2)).2.2.1,
   (clear_hooks_baseline addMetaH123 (1, 2)).2.2.2.2⟩

/-! ### Helpers for first-match removal -/

/-- `findIdx?` on a list split around the first satisfying element. -/
theorem findIdx?_append_cons {p : α → Bool} :
    ∀ (l1 : List α) (e : α) (l2 : List α), (∀ x ∈ l1, p x = false) →
      p e = true → ∀ i : Nat,
      List.findIdx? p (l1 ++ e :: l2) i = some (i + l1.length) := by
  intro l1
  induction l1 with
  | nil =>
    intro e l2 _ he i
    simp [List.findIdx?_cons, he]
  | cons a t ih =>
    intro e l2 hl1 he i
    have ha : p a = false := hl1 a (List.mem_cons_self a t)
    rw [List.cons_append, List.findIdx?_cons, if_neg (by simp [ha]),
      ih e l2 (fun x hx => hl1 x (List.mem_cons_of_mem a hx)) he (i + 1)]
    congr 1
    simp
    omega

/-- Erasing at the index of the distinguished element of a split. -/
theorem eraseIdx_append_length :
    ∀ (l1 : List α) (e : α) (l2 : List α),
      (l1 ++ e :: l2).eraseIdx l1.length = l1 ++ l2 := by
  intro l1
  induction l1 with
  | nil => intro e l2; rfl
  | cons a t ih =>
    intro e l2
    rw [List.cons_append, List.length_cons, List.eraseIdx_cons_succ, ih]
    rfl

/-- Claim C5: `remove_hook` removes exactly the first entry whose capability
is address-identical to the given identity and returns true, shrinking the
list by one and storing false into the fast-path flag exactly when the
list became empty; with no address-identical entry it returns false and
leaves the record unchanged. -/
theorem remove_hook_spec (m : HookableFuncMetadata A R) (hookId : Nat) :
    (∀ (l1 : List (HookEntry A R)) (e : HookEntry A R)
        (l2 : List (HookEntry A R)),
      m.hooks = l1 ++ e :: l2 → (∀ x ∈ l1, x.1.id ≠ hookId) →
      e.1.id = hookId →
        m.remove_hook hookId =
          (true, { m with
            hooks := l1 ++ l2
            fast_path_flag :=
              if (l1 ++ l2).isEmpty then false else m.fast_path_flag }) ∧
        (l1 ++ l2).length + 1 = m.hooks.length) ∧
    ((∀ x ∈ m.hooks, x.1.id ≠ hookId) → m.remove_hook hookId = (false, m)) := by
  constructor
  · intro l1 e l2 hsplit hl1 he
    have hfind : m.hooks.findIdx? (fun h => h.1.id == hookId)
        = some l1.length := by
      rw [hsplit]
      have := findIdx?_append_cons (p := fun (h : HookEntry A R) =>
        h.1.id == hookId) l1 e l2
        (fun x hx => by simpa using hl1 x hx) (by simpa using he) 0
      simpa using this
    have herase : m.hooks.eraseIdx l1.length = l1 ++ l2 := by
      rw [hsplit]; exact eraseIdx_append_length l1 e l2
    constructor
    · rw [HookableFuncMetadata.remove_hook, hfind]
      simp only [herase]
    · rw [hsplit]
      simp
      omega
  · intro hall
    have hfind : m.hooks.findIdx? (fun h => h.1.id == hookId) = none := by
      rw [List.findIdx?_eq_none_iff]
      intro x hx
      simpa using hall x hx
    rw [HookableFuncMetadata.remove_hook, hfind]

/-- Witness for C5, at the record holding the three scenario hooks:
removing hook 1 (the last entry) removes exactly it, and removing the
absent identity 7 changes nothing. -/
theorem remove_hook_spec_witness :
    (addMetaH123.remove_hook 1 =
      (true, { addMetaH123 with
        hooks := [(hookAddCap 3 0 0 1, 0), (hookAddCap 2 0 1 0, 0)] ++ []
        fast_path_flag :=
          if ([(hookAddCap 3 0 0 1, 0), (hookAddCap 2 0 1 0, 0)] ++
              ([] : List (HookEntry (Int × Int) Int))).isEmpty then false
          else addMetaH123.fast_path_flag }) ∧
      ([(hookAddCap 3 0 0 1, 0), (hookAddCap 2 0 1 0, 0)] ++
        ([] : List (HookEntry (Int × Int) Int))).length + 1
        = addMetaH123.hooks.length) ∧
    addMetaH123.remove_hook 7 = (false, addMetaH123) :=
  ⟨(remove_hook_spec addMetaH123 1).1
      [(hookAddCap 3 0 0 1, 0), (hookAddCap 2 0 1 0, 0)] (hookAddCap 1 1 0 0, 0)
      [] (by rfl) (by decide) rfl,
   (remove_hook_spec addMetaH123 7).2 (by decide)⟩

/-! ### Ordering invariant of the hook list -/

/-- The hook list invariant: sorted by descending priority. -/
def sortedByPriority (l : List (HookEntry A R)) : Prop :=
  l.Pairwise (fun a b => b.2 ≤ a.2)

/-- Inserting at the position computed by `add_hook_with_priority`
(`position(|h| h.1 <= priority)`, defaulting to the end) keeps the list
sorted by descending priority. -/
theorem sortedByPriority_insert (l : List (HookEntry A R)) (c : HookCap A R)
    (p : Int) (hs : sortedByPriority l) :
    sortedByPriority
      (l.insertIdx (l.findIdx fun h => decide (h.2 ≤ p)) (c, p)) := by
  induction l with
  | nil => simp [sortedByPriority]
  | cons a t ih =>
    rw [sortedByPriority, List.pairwise_cons] at hs
    obtain ⟨ha_all, ht⟩ := hs
    by_cases hap : a.2 ≤ p
    · rw [List.findIdx_cons, decide_eq_true hap, Bool.cond_true,
        List.insertIdx_zero]
      refine List.Pairwise.cons ?_ (List.Pairwise.cons ha_all ht)
      intro b hb
      rcases List.mem_cons.mp hb with h | h
      · rw [h]; exact hap
      · exact le_trans (ha_all b h) hap
    · rw [List.findIdx_cons, decide_eq_false hap, Bool.cond_false,
        List.insertIdx_succ_cons]
      refine List.Pairwise.cons ?_ (ih ht)
      intro b hb
      have hble : (t.findIdx fun h => decide (h.2 ≤ p)) ≤ t.length :=
        List.findIdx_le_length (fun (h : HookEntry A R) => decide (h.2 ≤ p))
      rcases (List.mem_insertIdx hble).mp hb with h | h
      · rw [h]; omega
      · exact ha_all b h

/-- The insertion of `add_hook_with_priority` lands exactly at the first
existing entry whose priority is `≤` the new one: the entries before the
new one are those that had strictly greater priority, and the first entry
after it (when any) has priority `≤` the new one. -/
theorem insertIdx_findIdx_split (l : List (HookEntry A R)) (c : HookCap A R)
    (p : Int) :
    ∃ l1 l2, l = l1 ++ l2 ∧
      l.insertIdx (l.findIdx fun h => decide (h.2 ≤ p)) (c, p)
        = l1 ++ (c, p) :: l2 ∧
      (∀ e ∈ l1, p < e.2) ∧
      (∀ e, l2.head? = some e → e.2 ≤ p) := by
  induction l with
  | nil => exact ⟨[], [], rfl, rfl, by simp, by simp⟩
  | cons a t ih =>
    by_cases hap : a.2 ≤ p
    · refine ⟨[], a :: t, rfl, ?_, by simp, ?_⟩
      · rw [List.findIdx_cons]
        simp [hap]
      · intro e he
        rw [List.head?_cons] at he
        injection he with he
        rw [← he]
        exact hap
    · obtain ⟨l1, l2, hsplit, hins, hgt, hhead⟩ := ih
      refine ⟨a :: l1, l2, by rw [List.cons_append, ← hsplit], ?_, ?_, hhead⟩
      · rw [List.findIdx_cons, decide_eq_false hap, Bool.cond_false,
          List.insertIdx_succ_cons, hins, List.cons_append]
      · intro e he
        rcases List.mem_cons.mp he with h | h
        · rw [h]; omega
        · exact hgt e h

/-! ### The priority-ordering scenario -/

/-- Signature pair of the trace target. -/
def traceTypeInfo : TypeTag × TypeTag := (3, 4)

/-- A hook that appends its tag to the running trace and continues; the
trace records the order in which hooks execute. -/
def traceCap (id : Nat) (tag : Int) : HookCap (List Int) (List Int) :=
  { id := id
    type_info := traceTypeInfo
    call := fun tr next => next (tr ++ [tag]) }

/-- A hookable identity target over traces, freshly registered. -/
def traceMeta0 : HookableFuncMetadata (List Int) (List Int) :=
  { name := "trace"
    func := fun tr => tr
    type_info := traceTypeInfo
    fast_path_flag := false
    hooks := [] }

/-- After adding the tag-5 hook at priority 5. -/
def traceMetaP5 : HookableFuncMetadata (List Int) (List Int) :=
  (traceMeta0.add_hook_with_priority (traceCap 1 5) 5).2

/-- After also adding the tag-1 hook at priority 1. -/
def traceMetaP51 : HookableFuncMetadata (List Int) (List Int) :=
  (traceMetaP5.add_hook_with_priority (traceCap 2 1) 1).2

/-- After also adding the tag-10 hook at priority 10. -/
def traceMetaP510 : HookableFuncMetadata (List Int) (List Int) :=
  (traceMetaP51.add_hook_with_priority (traceCap 3 10) 10).2

/-- Claim C2: a successful `add_hook_with_priority` keeps the hook list
sorted by descending priority with ties broken LIFO — the new entry is
inserted at the first existing entry whose priority is `≤` the new one,
so it sits before every existing equal-priority entry; and hooks added
with priorities [5, 1, 10] in that insertion order execute in order
[10, 5, 1]. -/
theorem add_hook_priority_order (m : HookableFuncMetadata A R)
    (cap : HookCap A R) (p : Int) (hty : cap.type_info = m.type_info)
    (hs : sortedByPriority m.hooks) :
    (sortedByPriority (m.add_hook_with_priority cap p).2.hooks ∧
      ∃ l1 l2, m.hooks = l1 ++ l2 ∧
        (m.add_hook_with_priority cap p).2.hooks = l1 ++ (cap, p) :: l2 ∧
        (∀ e ∈ l1, p < e.2) ∧
        (∀ e, l2.head? = some e → e.2 ≤ p)) ∧
    (traceMetaP510.hooks.map (fun e => e.2) = [10, 5, 1] ∧
      callHookable traceMetaP510 [] = [10, 5, 1]) := by
  have hhooks : (m.add_hook_with_priority cap p).2.hooks =
      m.hooks.insertIdx (m.hooks.findIdx fun h => decide (h.2 ≤ p)) (cap, p) := by
    simp [HookableFuncMetadata.add_hook_with_priority, hty]
  refine ⟨⟨?_, ?_⟩, ?_, ?_⟩
  · rw [hhooks]
    exact sortedByPriority_insert m.hooks cap p hs
  · obtain ⟨l1, l2, h1, h2, h3, h4⟩ := insertIdx_findIdx_split m.hooks cap p
    exact ⟨l1, l2, h1, by rw [hhooks, h2], h3, h4⟩
  · decide
  · rw [callHookable_eq]
    decide

/-- Witness for C2: adding the priority-1 hook to the record holding only
the priority-5 hook. -/
theorem add_hook_priority_order_witness :
    (sortedByPriority
        (traceMetaP5.add_hook_with_priority (traceCap 2 1) 1).2.hooks ∧
      ∃ l1 l2, traceMetaP5.hooks = l1 ++ l2 ∧
        (traceMetaP5.add_hook_with_priority (traceCap 2 1) 1).2.hooks
          = l1 ++ (traceCap 2 1, 1) :: l2 ∧
        (∀ e ∈ l1, (1 : Int) < e.2) ∧
        (∀ e, l2.head? = some e → e.2 ≤ (1 : Int))) ∧
    (traceMetaP510.hooks.map (fun e => e.2) = [10, 5, 1] ∧
      callHookable traceMetaP510 [] = [10, 5, 1]) :=
  add_hook_priority_order traceMetaP5 (traceCap 2 1) 1 rfl
    (by rw [show traceMetaP5.hooks = [(traceCap 1 5, 5)] from rfl]
        simp [sortedByPriority])

/-- Claim C8: for every name registered in the directory, lookup returns
the first record whose name equals the query character-for-character —
that record's `name()` equals the query and it is the very record that
was registered (so its original entry is the registered one) — and lookup
of an absent name returns the empty result. -/
theorem lookup_hookable_spec (registry : List (HookableFuncMetadata A R))
    (q : String) :
    ((∃ x ∈ registry, x.name = q) →
      ∃ l1 r l2, registry = l1 ++ r :: l2 ∧ (∀ x ∈ l1, x.name ≠ q) ∧
        r.name = q ∧ lookup_hookable registry q = some r) ∧
    ((∀ x ∈ registry, x.name ≠ q) → lookup_hookable registry q = none) := by
  induction registry with
  | nil =>
    refine ⟨?_, fun _ => rfl⟩
    rintro ⟨x, hx, -⟩
    exact absurd hx (List.not_mem_nil x)
  | cons a t ih =>
    by_cases ha : a.name = q
    · refine ⟨fun _ => ⟨[], a, t, rfl, by simp, ha, ?_⟩, fun hall => ?_⟩
      · rw [lookup_hookable, List.find?_cons_of_pos]
        simpa using ha
      · exact absurd ha (hall a (List.mem_cons_self a t))
    · have hlook : lookup_hookable (a :: t) q = lookup_hookable t q := by
        rw [lookup_hookable, lookup_hookable, List.find?_cons_of_neg]
        simpa using ha
      constructor
      · rintro ⟨x, hx, hxq⟩
        rcases List.mem_cons.mp hx with h | h
        · exact absurd hxq (by rw [h]; exact ha)
        · obtain ⟨l1, r, l2, h1, h2, h3, h4⟩ := ih.1 ⟨x, h, hxq⟩
          refine ⟨a :: l1, r, l2, by rw [List.cons_append, ← h1], ?_, h3, ?_⟩
          · intro y hy
            rcases List.mem_cons.mp hy with h | h
            · rw [h]; exact ha
            · exact h2 y h
          · rw [hlook]; exact h4
      · intro hall
        rw [hlook]
        exact ih.2 fun x hx => hall x (List.mem_cons_of_mem a hx)

/-- Witness for C8: a one-record directory holding the `add` record:
lookup of "add" returns it as the first match, lookup of "missing" is
empty. -/
theorem lookup_hookable_spec_witness :
    (∃ l1 r l2, [addMeta0] = l1 ++ r :: l2 ∧ (∀ x ∈ l1, x.name ≠ "add") ∧
      r.name = "add" ∧ lookup_hookable [addMeta0] "add" = some r) ∧
    lookup_hookable [addMeta0] "missing" = none :=
  ⟨(lookup_hookable_spec [addMeta0] "add").1 ⟨addMeta0, by simp, rfl⟩,
   (lookup_hookable_spec [addMeta0] "missing").2 (by
      intro x hx
      rw [List.mem_singleton.mp hx]
      decide)⟩

/-- Counterexample to C9 as stated: `remove_hook` is a mutator of the
fast-path flag, yet on the record holding a single hook its removal
stores the flag with `Ordering::Relaxed`, not `Ordering::Release`
(src/safe-hook/src/lib.rs line 249; likewise `clear_hooks`, line 262). -/
theorem mutator_store_relaxed_counterexample :
    addMetaOne.remove_hook_events 1 = [.store false .relaxed] ∧
    MemOrd.relaxed ≠ MemOrd.release := by
  exact ⟨by decide, by decide⟩

/-- Claim C9 as amended: `add_hook_with_priority` (on success) stores the
flag with release ordering; `remove_hook` and `clear_hooks` store it with
relaxed ordering; every call-site read of the flag uses acquire
ordering. -/
theorem atomic_order_discipline (m : HookableFuncMetadata A R)
    (cap : HookCap A R) (p : Int) (hookId : Nat)
    (hty : cap.type_info = m.type_info) :
    m.add_hook_events cap p = [.store true .release] ∧
    (∀ e ∈ m.remove_hook_events hookId, e = .store false .relaxed) ∧
    m.clear_hooks_events = [.store false .relaxed] ∧
    call_site_events m = [.load m.fast_path_flag .acquire] := by
  refine ⟨?_, ?_, rfl, rfl⟩
  · simp [HookableFuncMetadata.add_hook_events, hty]
  · rw [HookableFuncMetadata.remove_hook_events]
    cases hfind : m.hooks.findIdx? (fun h => h.1.id == hookId) with
    | none => intro e he; exact absurd he (List.not_mem_nil e)
    | some pos =>
      simp only
      by_cases hemp : (m.hooks.eraseIdx pos).isEmpty
      · rw [if_pos hemp]
        intro e he
        exact List.mem_singleton.mp he
      · rw [if_neg hemp]
        intro e he
        exact absurd he (List.not_mem_nil e)

/-- Witness for the amended C9, at the `add` record and hook 1. -/
theorem atomic_order_discipline_witness :
    addMeta0.add_hook_events (hookAddCap 1 1 0 0) 0 = [.store true .release] ∧
    (∀ e ∈ addMetaOne.remove_hook_events 1, e = .store false .relaxed) ∧
    addMetaOne.clear_hooks_events = [.store false .relaxed] ∧
    call_site_events addMeta0 = [.load addMeta0.fast_path_flag .acquire] :=
  ⟨(atomic_order_discipline addMeta0 (hookAddCap 1 1 0 0) 0 1 rfl).1,
   (atomic_order_discipline addMetaOne (hookAddCap 1 1 0 0) 0 1 rfl).2.1,
   (atomic_order_discipline addMetaOne (hookAddCap 1 1 0 0) 0 1 rfl).2.2.1,
   (atomic_order_discipline addMeta0 (hookAddCap 1 1 0 0) 0 1 rfl).2.2.2⟩
